import Mathlib

/-!
Shallow embedding of the order-trigger evaluation and execution engine of the
jupiter-trading repository (src/src/contexts/OrderContext.tsx) together with
the price-cache layer of its jupiterService (getTokenPrice and the fallback
pricing), and the order-form submit handler.  Prices and amounts are modelled
as rationals, timestamps as naturals (milliseconds), the Firestore order
collection as a list of order documents, and the swap executor, quote
provider and Math.random draws as explicit parameters.  Every engine
operation returns the new store together with the trace of status writes and
of swap-executor invocations, so that the spec's state-machine and
idempotence properties can be stated about traces.
-/

namespace JupTrade

/-- Order kind, from `export type OrderType` in OrderContext.tsx. -/
inductive OrderType
  | LIMIT
  | STOP_LOSS
  | TAKE_PROFIT
deriving DecidableEq

/-- Order status, the five-value enum of the `Order` interface. -/
inductive OrderStatus
  | PENDING
  | EXECUTING
  | EXECUTED
  | FAILED
  | CANCELLED
deriving DecidableEq

/-- An order document, from the `Order` interface in OrderContext.tsx
(the backward-compatibility `amount` alias is dropped; `inputAmount` is the
authoritative field). -/
structure Order where
  id : Nat
  walletAddress : String
  inputToken : String
  outputToken : String
  inputAmount : ℚ
  orderType : OrderType
  triggerPrice : ℚ
  status : OrderStatus
  createdAt : Nat
  executedAt : Option Nat := none
  transactionSignature : Option String := none
  failureReason : Option String := none
deriving DecidableEq

/-- A status write performed by `updateDoc` (each one is paired in the source
with a `websocketService.triggerOrderUpdate` notification carrying the new
status): the order id, the status the document held before the write, and the
status written. -/
structure StatusWrite where
  orderId : Nat
  oldStatus : OrderStatus
  newStatus : OrderStatus
deriving DecidableEq

/-- Outcome of one `executeSwap` invocation in jupiterService: the promise
resolves to `{success:true, signature}` or `{success:false, error}`, or the
call throws (with an `Error` carrying a message, or a non-`Error` value). -/
inductive SwapOutcome
  | ok (signature : String)
  | err (error : String)
  | thrown (message : Option String)
deriving DecidableEq

/-- Result of running an engine operation: the updated order collection, the
sequence of status writes it performed, and the sequence of swap-executor
invocations (each recorded with the order document passed to the executor). -/
structure EngineResult where
  store : List Order
  writes : List StatusWrite
  swaps : List Order
deriving DecidableEq

/-- `getDoc(doc(db, 'orders', orderId))`: the first document with the given
id, if any. -/
def getDoc (store : List Order) (orderId : Nat) : Option Order :=
  store.find? (fun o => o.id == orderId)

/-- `updateDoc` on the document with the given id: applies the field update
`f` to every document whose id matches. -/
def updateOrder (store : List Order) (orderId : Nat) (f : Order → Order) :
    List Order :=
  store.map (fun o => if o.id = orderId then f o else o)

/-- Status of the document with the given id, if present. -/
def docStatus (store : List Order) (orderId : Nat) : Option OrderStatus :=
  (getDoc store orderId).map (fun o => o.status)

/-- `failureReason` field of the document with the given id (`none` when the
document is absent or the field is unset). -/
def docFailureReason (store : List Order) (orderId : Nat) : Option String :=
  (getDoc store orderId).bind (fun o => o.failureReason)

/-- The `switch (order.orderType)` of `checkOrderTriggers`
(OrderContext.tsx lines 112-125): LIMIT and STOP_LOSS fire when the current
price is at or below the trigger, TAKE_PROFIT when at or above. -/
def shouldExecuteScan (orderType : OrderType) (triggerPrice currentPrice : ℚ) :
    Bool :=
  match orderType with
  | .LIMIT => decide (currentPrice ≤ triggerPrice)
  | .STOP_LOSS => decide (currentPrice ≤ triggerPrice)
  | .TAKE_PROFIT => decide (currentPrice ≥ triggerPrice)

/-- The `switch (orderData.orderType)` of `createOrder`
(OrderContext.tsx lines 259-269), written at its own code site. -/
def shouldExecuteCreate (orderType : OrderType) (triggerPrice currentPrice : ℚ) :
    Bool :=
  match orderType with
  | .LIMIT => decide (currentPrice ≤ triggerPrice)
  | .STOP_LOSS => decide (currentPrice ≤ triggerPrice)
  | .TAKE_PROFIT => decide (currentPrice ≥ triggerPrice)

/-- `executeOrder(orderId)` (OrderContext.tsx lines 141-232): read the order;
abort silently if absent; otherwise write status EXECUTING, invoke the swap
executor with the order's data, and resolve to EXECUTED (with `executedAt`
and `transactionSignature`) on success, or to FAILED with `failureReason` the
returned error, the thrown Error's message, or `"Unknown error"`. -/
def executeOrder (exec : Order → SwapOutcome) (now : Nat)
    (store : List Order) (orderId : Nat) : EngineResult :=
  match getDoc store orderId with
  | none => ⟨store, [], []⟩
  | some orderData =>
    let store1 := updateOrder store orderId
      (fun o => { o with status := OrderStatus.EXECUTING })
    match exec orderData with
    | .ok sig =>
        ⟨updateOrder store1 orderId (fun o =>
            { o with status := OrderStatus.EXECUTED,
                     executedAt := some now,
                     transactionSignature := some sig }),
         [⟨orderId, orderData.status, .EXECUTING⟩,
          ⟨orderId, .EXECUTING, .EXECUTED⟩],
         [orderData]⟩
    | .err e =>
        ⟨updateOrder store1 orderId (fun o =>
            { o with status := OrderStatus.FAILED,
                     failureReason := some e }),
         [⟨orderId, orderData.status, .EXECUTING⟩,
          ⟨orderId, .EXECUTING, .FAILED⟩],
         [orderData]⟩
    | .thrown m =>
        ⟨updateOrder store1 orderId (fun o =>
            { o with status := OrderStatus.FAILED,
                     failureReason := some (m.getD "Unknown error") }),
         [⟨orderId, orderData.status, .EXECUTING⟩,
          ⟨orderId, .EXECUTING, .FAILED⟩],
         [orderData]⟩

/-- One iteration of the `for (const order of pendingOrders)` loop of
`checkOrderTriggers`: fetch the pair price, evaluate the trigger, and execute
the order when it fires, threading the store and accumulating writes and
executor invocations. -/
def scanStep (exec : Order → SwapOutcome) (price : String → String → ℚ)
    (now : Nat) (acc : EngineResult) (order : Order) : EngineResult :=
  let currentPrice := price order.inputToken order.outputToken
  if shouldExecuteScan order.orderType order.triggerPrice currentPrice then
    let r := executeOrder exec now acc.store order.id
    ⟨r.store, acc.writes ++ r.writes, acc.swaps ++ r.swaps⟩
  else acc

/-- `checkOrderTriggers` (OrderContext.tsx lines 98-138): filter the order
snapshot to the PENDING ones, then evaluate and possibly execute each in
order. -/
def checkOrderTriggers (exec : Order → SwapOutcome)
    (price : String → String → ℚ) (now : Nat) (store : List Order) :
    EngineResult :=
  let pendingOrders := store.filter (fun o => o.status == OrderStatus.PENDING)
  pendingOrders.foldl (scanStep exec price now) ⟨store, [], []⟩

/-- The order draft passed to `createOrder` (all `Order` fields except id,
walletAddress, status and createdAt). -/
structure OrderDraft where
  inputToken : String
  outputToken : String
  inputAmount : ℚ
  orderType : OrderType
  triggerPrice : ℚ
deriving DecidableEq

/-- `createOrder(orderData)` (OrderContext.tsx lines 234-282): add a new
document with status PENDING (no validation of the draft's fields), then
evaluate the draft's trigger against the current pair price and execute the
fresh order inline when it already fires. -/
def createOrder (exec : Order → SwapOutcome) (price : String → String → ℚ)
    (now : Nat) (walletAddress : String) (freshId : Nat)
    (store : List Order) (draft : OrderDraft) : EngineResult :=
  let newOrder : Order :=
    { id := freshId
      walletAddress := walletAddress
      inputToken := draft.inputToken
      outputToken := draft.outputToken
      inputAmount := draft.inputAmount
      orderType := draft.orderType
      triggerPrice := draft.triggerPrice
      status := OrderStatus.PENDING
      createdAt := now }
  let store1 := store ++ [newOrder]
  let currentPrice := price draft.inputToken draft.outputToken
  if shouldExecuteCreate draft.orderType draft.triggerPrice currentPrice then
    executeOrder exec now store1 freshId
  else ⟨store1, [], []⟩

/-- `cancelOrder(orderId)` (OrderContext.tsx lines 284-306): unconditionally
write status CANCELLED on the document, whatever its current status (when
the document is absent, `updateDoc` rejects and the catch leaves the state
unchanged). -/
def cancelOrder (store : List Order) (orderId : Nat) : EngineResult :=
  match getDoc store orderId with
  | none => ⟨store, [], []⟩
  | some o =>
    ⟨updateOrder store orderId
        (fun x => { x with status := OrderStatus.CANCELLED }),
     [⟨orderId, o.status, .CANCELLED⟩], []⟩

/-- `retryOrder(orderId)` (OrderContext.tsx lines 308-334): unconditionally
write status PENDING and clear `failureReason`, then run `checkOrderTriggers`
in the same call.  The in-call scan filters the React `orders` state, a
closure-captured snapshot from the render in which `retryOrder` was created:
the `updateDoc` changes the document store, but the snapshot the scan's
PENDING filter iterates is the pre-retry list (the `onSnapshot` refresh only
reaches a later render).  So the scan's pending list is computed from the
pre-write `store`, while each `executeOrder` it performs reads the post-write
store. -/
def retryOrder (exec : Order → SwapOutcome) (price : String → String → ℚ)
    (now : Nat) (store : List Order) (orderId : Nat) : EngineResult :=
  match getDoc store orderId with
  | none => ⟨store, [], []⟩
  | some o =>
    let store1 := updateOrder store orderId
      (fun x => { x with status := OrderStatus.PENDING, failureReason := none })
    let pendingOrders := store.filter (fun x => x.status == OrderStatus.PENDING)
    let r := pendingOrders.foldl (scanStep exec price now) ⟨store1, [], []⟩
    ⟨r.store, ⟨orderId, o.status, .PENDING⟩ :: r.writes, r.swaps⟩

/-- `OrderForm.handleSubmit`: rejects a draft whose amount or trigger price
is not positive before invoking `createOrder` (the wallet-connected guard is
assumed satisfied). -/
def handleSubmit (exec : Order → SwapOutcome) (price : String → String → ℚ)
    (now : Nat) (walletAddress : String) (freshId : Nat)
    (store : List Order) (draft : OrderDraft) : EngineResult :=
  if draft.inputAmount ≤ 0 then ⟨store, [], []⟩
  else if draft.triggerPrice ≤ 0 then ⟨store, [], []⟩
  else createOrder exec price now walletAddress freshId store draft

/-- The transition graph of spec §4.5: `PENDING -> EXECUTING`,
`EXECUTING -> EXECUTED`, `EXECUTING -> FAILED`, `PENDING -> CANCELLED`,
`FAILED -> PENDING`. -/
def allowedEdge : OrderStatus → OrderStatus → Bool
  | .PENDING, .EXECUTING => true
  | .EXECUTING, .EXECUTED => true
  | .EXECUTING, .FAILED => true
  | .PENDING, .CANCELLED => true
  | .FAILED, .PENDING => true
  | _, _ => false

/-! ## Price-cache layer (jupiterService: getTokenPrice and fallback prices) -/

/-- Mint address constants from `export const TOKENS` in jupiterService. -/
def TOKENS_SOL : String := "So11111111111111111111111111111111111111112"

/-- USDC mint address from `TOKENS`. -/
def TOKENS_USDC : String := "EPjFWdd5AufqSSqeM2qN1xzybapC8G4wEGGkZwyTDt1v"

/-- BONK mint address from `TOKENS`. -/
def TOKENS_BONK : String := "DezXAZ8z7PnrnRJjz3wXBoRgixCa6xjnB7YaB1pPB263"

/-- USDT mint address from `TOKENS`. -/
def TOKENS_USDT : String := "Es9vMFrzaCERmJfrF4H2FYD4KCoNkY11McCe8BenwNYB"

/-- mSOL mint address from `TOKENS`. -/
def TOKENS_mSOL : String := "mSoLzYCxHdYgdzU16g5QSh3i5K3z3KZK7ytfqcJm7So"

/-- JTO mint address from `TOKENS`. -/
def TOKENS_JTO : String := "jtojtomepa8beP8AuQc6eXt5FriJwfFMwQx2v2f9XCi"

/-- `generateFallbackPrice(mint)`: the per-token synthetic price used when
the quote provider fails.  In the source each known token's value is a fixed
base plus a `Math.random()` jitter; the draw of `Math.random()` (a value in
`[0,1)`) is made explicit as the argument `rand`. -/
def generateFallbackPrice (mint : String) (rand : ℚ) : ℚ :=
  if mint = TOKENS_SOL then 150 + (rand * 10 - 5)
  else if mint = TOKENS_USDC ∨ mint = TOKENS_USDT then
    1 + (rand * (1 / 100) - 5 / 1000)
  else if mint = TOKENS_BONK then 1 / 100000 + rand * (1 / 1000000)
  else if mint = TOKENS_mSOL then 160 + (rand * 10 - 5)
  else if mint = TOKENS_JTO then 5 / 2 + (rand * (2 / 10) - 1 / 10)
  else 1

/-- One entry of the module-level `tokenPriceCache` map: a price and the
timestamp at which it was stored. -/
structure CacheEntry where
  price : ℚ
  timestamp : Nat
deriving DecidableEq

/-- The `tokenPriceCache` map, as an association list (newest binding
first, as produced by `Map.set`). -/
def cacheLookup (cache : List (String × CacheEntry)) (mint : String) :
    Option CacheEntry :=
  (cache.find? (fun e => e.1 == mint)).map (fun e => e.2)

/-- `tokenPriceCache.set(mint, entry)`: replace any binding for the mint. -/
def cacheInsert (cache : List (String × CacheEntry)) (mint : String)
    (entry : CacheEntry) : List (String × CacheEntry) :=
  (mint, entry) :: cache.filter (fun e => e.1 ≠ mint)

/-- Outcome of one `axios.get('https://price.jup.ag/v4/price', ...)` call:
the response carries a price for the mint, carries none
(`response.data.data[mint]?.price` is undefined), or the request throws. -/
inductive ProviderResult
  | ok (price : Option ℚ)
  | failure
deriving DecidableEq

/-- Result of `getTokenPrice`: the returned value (`none` models the
`undefined` return when the response has no price for the mint), the cache
after the call, and how many provider requests the call made. -/
structure PriceFetchResult where
  result : Option ℚ
  cache : List (String × CacheEntry)
  providerCalls : Nat
deriving DecidableEq

/-- The cache-miss path of `getTokenPrice(mint)` (jupiterService): one
provider call.  A truthy returned price is stored in the cache; on a thrown
provider error the call resolves to `generateFallbackPrice(mint)` (with
random draw `rand`) instead of failing the caller. -/
def fetchTokenPrice (provider : ProviderResult) (rand : ℚ) (now : Nat)
    (cache : List (String × CacheEntry)) (mint : String) : PriceFetchResult :=
  match provider with
  | .ok (some p) =>
      if p ≠ 0 then ⟨some p, cacheInsert cache mint ⟨p, now⟩, 1⟩
      else ⟨some p, cache, 1⟩
  | .ok none => ⟨none, cache, 1⟩
  | .failure => ⟨some (generateFallbackPrice mint rand), cache, 1⟩

/-- `getTokenPrice(mint)`: return the cached price when the entry is
younger than 30000 ms; otherwise perform one provider fetch
(`fetchTokenPrice`). -/
def getTokenPrice (provider : ProviderResult) (rand : ℚ) (now : Nat)
    (cache : List (String × CacheEntry)) (mint : String) : PriceFetchResult :=
  match cacheLookup cache mint with
  | some entry =>
    if now - entry.timestamp < 30000 then ⟨some entry.price, cache, 0⟩
    else fetchTokenPrice provider rand now cache mint
  | none => fetchTokenPrice provider rand now cache mint

/-! ## Helper lemmas about the store operations -/

theorem getDoc_id {store : List Order} {i : Nat} {o : Order}
    (h : getDoc store i = some o) : o.id = i := by
  have := List.find?_some h
  simpa using this

theorem getDoc_mem {store : List Order} {i : Nat} {o : Order}
    (h : getDoc store i = some o) : o ∈ store :=
  List.mem_of_find?_eq_some h

theorem getDoc_updateOrder (store : List Order) (i j : Nat) (f : Order → Order)
    (hf : ∀ x, (f x).id = x.id) :
    getDoc (updateOrder store j f) i =
      (getDoc store i).map (fun o => if o.id = j then f o else o) := by
  unfold getDoc updateOrder
  rw [List.find?_map]
  have hp : ((fun o : Order => o.id == i) ∘
      fun o : Order => if o.id = j then f o else o) =
      fun o : Order => o.id == i := by
    funext o
    by_cases h : o.id = j <;> simp [h, hf]
  rw [hp]

theorem getDoc_updateOrder_self {store : List Order} {i : Nat} {o : Order}
    (f : Order → Order) (hf : ∀ x, (f x).id = x.id)
    (h : getDoc store i = some o) :
    getDoc (updateOrder store i f) i = some (f o) := by
  rw [getDoc_updateOrder store i i f hf, h]
  simp [getDoc_id h]

theorem getDoc_updateOrder_ne {store : List Order} {i j : Nat}
    (f : Order → Order) (hf : ∀ x, (f x).id = x.id) (hij : i ≠ j) :
    getDoc (updateOrder store j f) i = getDoc store i := by
  rw [getDoc_updateOrder store i j f hf]
  cases h : getDoc store i with
  | none => rfl
  | some o => simp [getDoc_id h, hij]

theorem updateOrder_keeps {store : List Order} {j : Nat} {f : Order → Order}
    (hf : ∀ x, (f x).id = x.id) {oid : Nat} {st : OrderStatus}
    (hj : j ≠ oid)
    (hI : ∀ y ∈ store, y.id = oid → y.status = st) :
    ∀ y ∈ updateOrder store j f, y.id = oid → y.status = st := by
  intro y hy hyid
  unfold updateOrder at hy
  rcases List.mem_map.mp hy with ⟨z, hz, hzy⟩
  by_cases h : z.id = j
  · rw [if_pos h] at hzy
    subst hzy
    rw [hf z] at hyid
    exact absurd (h.symm.trans hyid) hj
  · rw [if_neg h] at hzy
    subst hzy
    exact hI z hz hyid

theorem getDoc_nodup {store : List Order}
    (hN : (store.map (fun o => o.id)).Nodup) {o : Order} (ho : o ∈ store) :
    getDoc store o.id = some o := by
  induction store with
  | nil => cases ho
  | cons a l ih =>
    rcases List.mem_cons.mp ho with h | h
    · subst h
      simp [getDoc, List.find?_cons]
    · have hN' : (l.map (fun o => o.id)).Nodup := (List.nodup_cons.mp hN).2
      have hmem : o.id ∈ l.map (fun o => o.id) := List.mem_map_of_mem _ h
      have hne : (a.id == o.id) = false := by
        refine beq_eq_false_iff_ne.mpr ?_
        intro he
        exact (List.nodup_cons.mp hN).1 (by simpa [he] using hmem)
      have := ih hN' h
      unfold getDoc at this ⊢
      rw [List.find?_cons]
      simpa [hne] using this

theorem getDoc_append_fresh (store : List Order) (o : Order)
    (h : o.id ∉ store.map (fun x => x.id)) :
    getDoc (store ++ [o]) o.id = some o := by
  unfold getDoc
  rw [List.find?_append]
  have h1 : store.find? (fun x => x.id == o.id) = none := by
    rw [List.find?_eq_none]
    intro x hx hbeq
    exact h (List.mem_map.mpr ⟨x, hx, beq_iff_eq.mp hbeq⟩)
  simp [h1, List.find?_cons]

/-! ## Lemmas about executeOrder -/

theorem executeOrder_swaps (exec : Order → SwapOutcome) (now : Nat)
    (store : List Order) (i : Nat) :
    ∀ d ∈ (executeOrder exec now store i).swaps, getDoc store i = some d := by
  intro d hd
  cases h : getDoc store i with
  | none => simp [executeOrder, h] at hd
  | some o =>
    cases hx : exec o <;> simp [executeOrder, h, hx] at hd <;>
      simp [h, hd]

theorem executeOrder_swaps_of_some (exec : Order → SwapOutcome) (now : Nat)
    (store : List Order) (i : Nat) {o : Order} (h : getDoc store i = some o) :
    (executeOrder exec now store i).swaps = [o] := by
  cases hx : exec o <;> simp [executeOrder, h, hx]

theorem executeOrder_store_keeps (exec : Order → SwapOutcome) (now : Nat)
    (store : List Order) (i : Nat) {oid : Nat} {st : OrderStatus}
    (hi : i ≠ oid)
    (hI : ∀ y ∈ store, y.id = oid → y.status = st) :
    ∀ y ∈ (executeOrder exec now store i).store, y.id = oid → y.status = st := by
  cases h : getDoc store i with
  | none => simpa [executeOrder, h] using hI
  | some o =>
    cases hx : exec o <;>
      (simp only [executeOrder, h, hx];
       refine updateOrder_keeps ?_ hi (updateOrder_keeps ?_ hi hI) <;>
         exact fun x => rfl)

theorem getDoc_executeOrder_ne (exec : Order → SwapOutcome) (now : Nat)
    (store : List Order) {i j : Nat} (hij : i ≠ j) :
    getDoc (executeOrder exec now store j).store i = getDoc store i := by
  cases h : getDoc store j with
  | none => simp [executeOrder, h]
  | some o =>
    cases hx : exec o <;>
      (simp only [executeOrder, h, hx];
       rw [getDoc_updateOrder_ne _ _ hij, getDoc_updateOrder_ne _ _ hij] <;>
         exact fun x => rfl)

theorem executeOrder_writes_pending (exec : Order → SwapOutcome) (now : Nat)
    (store : List Order) (i : Nat) {o : Order}
    (h : getDoc store i = some o) (hs : o.status = OrderStatus.PENDING) :
    ∀ w ∈ (executeOrder exec now store i).writes,
      allowedEdge w.oldStatus w.newStatus = true := by
  intro w hw
  cases hx : exec o <;> simp [executeOrder, h, hx] at hw <;>
    (rcases hw with hw | hw <;> subst hw <;> simp [allowedEdge, hs])

/-! ## Lemmas about the scan cycle fold -/

theorem scanStep_def (exec : Order → SwapOutcome) (price : String → String → ℚ)
    (now : Nat) (acc : EngineResult) (x : Order) :
    scanStep exec price now acc x =
      if shouldExecuteScan x.orderType x.triggerPrice
          (price x.inputToken x.outputToken) then
        ⟨(executeOrder exec now acc.store x.id).store,
         acc.writes ++ (executeOrder exec now acc.store x.id).writes,
         acc.swaps ++ (executeOrder exec now acc.store x.id).swaps⟩
      else acc := rfl

theorem scanStep_getDoc_ne (exec : Order → SwapOutcome)
    (price : String → String → ℚ) (now : Nat) (acc : EngineResult) (x : Order)
    {i : Nat} (hne : i ≠ x.id) :
    getDoc (scanStep exec price now acc x).store i = getDoc acc.store i := by
  rw [scanStep_def]
  split
  · exact getDoc_executeOrder_ne _ _ _ hne
  · rfl

theorem scan_swaps_mono (exec : Order → SwapOutcome)
    (price : String → String → ℚ) (now : Nat) :
    ∀ (l : List Order) (acc : EngineResult),
      ∀ d ∈ acc.swaps, d ∈ (l.foldl (scanStep exec price now) acc).swaps := by
  intro l
  induction l with
  | nil => intro acc d hd; simpa using hd
  | cons x l ih =>
    intro acc d hd
    rw [List.foldl_cons]
    apply ih
    rw [scanStep_def]
    split
    · exact List.mem_append_left _ hd
    · exact hd

theorem scan_swaps_ids (exec : Order → SwapOutcome)
    (price : String → String → ℚ) (now : Nat) :
    ∀ (l : List Order) (acc : EngineResult),
      ∀ d ∈ (l.foldl (scanStep exec price now) acc).swaps,
        d ∈ acc.swaps ∨ ∃ x ∈ l, d.id = x.id := by
  intro l
  induction l with
  | nil => intro acc d hd; exact Or.inl (by simpa using hd)
  | cons x l ih =>
    intro acc d hd
    rw [List.foldl_cons] at hd
    rcases ih _ d hd with h | ⟨y, hy, hid⟩
    · rw [scanStep_def] at h
      by_cases hf : shouldExecuteScan x.orderType x.triggerPrice
          (price x.inputToken x.outputToken) = true
      · rw [if_pos hf] at h
        rcases List.mem_append.mp h with h | h
        · exact Or.inl h
        · have := executeOrder_swaps exec now acc.store x.id d h
          exact Or.inr ⟨x, List.mem_cons_self x l, getDoc_id this⟩
      · rw [if_neg hf] at h
        exact Or.inl h
    · exact Or.inr ⟨y, List.mem_cons_of_mem x hy, hid⟩

theorem scan_store_keeps (exec : Order → SwapOutcome)
    (price : String → String → ℚ) (now : Nat) {oid : Nat} {st : OrderStatus} :
    ∀ (l : List Order) (acc : EngineResult),
      (∀ x ∈ l, x.id ≠ oid) →
      (∀ y ∈ acc.store, y.id = oid → y.status = st) →
      ∀ y ∈ (l.foldl (scanStep exec price now) acc).store,
        y.id = oid → y.status = st := by
  intro l
  induction l with
  | nil => intro acc _ hI; simpa using hI
  | cons x l ih =>
    intro acc hne hI
    rw [List.foldl_cons]
    apply ih _ (fun z hz => hne z (List.mem_cons_of_mem x hz))
    rw [scanStep_def]
    split
    · exact executeOrder_store_keeps exec now acc.store x.id
        (hne x (List.mem_cons_self x l)) hI
    · exact hI

theorem scan_writes_ok (exec : Order → SwapOutcome)
    (price : String → String → ℚ) (now : Nat) :
    ∀ (l : List Order) (acc : EngineResult),
      (l.map (fun o => o.id)).Nodup →
      (∀ x ∈ l, x.status = OrderStatus.PENDING) →
      (∀ x ∈ l, getDoc acc.store x.id = some x) →
      (∀ w ∈ acc.writes, allowedEdge w.oldStatus w.newStatus = true) →
      ∀ w ∈ (l.foldl (scanStep exec price now) acc).writes,
        allowedEdge w.oldStatus w.newStatus = true := by
  intro l
  induction l with
  | nil => intro acc _ _ _ hW; simpa using hW
  | cons x l ih =>
    intro acc hN hP hG hW
    have hxid : x.id ∉ l.map (fun o => o.id) :=
      (List.nodup_cons.mp (by simpa using hN)).1
    have hNtail : (l.map (fun o => o.id)).Nodup :=
      (List.nodup_cons.mp (by simpa using hN)).2
    have hne : ∀ z ∈ l, z.id ≠ x.id := fun z hz he =>
      hxid (he ▸ List.mem_map.mpr ⟨z, hz, rfl⟩)
    rw [List.foldl_cons]
    refine ih _ hNtail (fun z hz => hP z (List.mem_cons_of_mem x hz)) ?_ ?_
    · intro z hz
      rw [scanStep_getDoc_ne exec price now acc x (hne z hz)]
      exact hG z (List.mem_cons_of_mem x hz)
    · intro w hw
      by_cases hf : shouldExecuteScan x.orderType x.triggerPrice
          (price x.inputToken x.outputToken) = true
      · rw [scanStep_def, if_pos hf] at hw
        rcases List.mem_append.mp hw with hw | hw
        · exact hW w hw
        · exact executeOrder_writes_pending exec now acc.store x.id
            (hG x (List.mem_cons_self x l)) (hP x (List.mem_cons_self x l)) w hw
      · rw [scanStep_def, if_neg hf] at hw
        exact hW w hw

theorem scan_fires_mem (exec : Order → SwapOutcome)
    (price : String → String → ℚ) (now : Nat) :
    ∀ (l : List Order) (acc : EngineResult),
      (l.map (fun o => o.id)).Nodup →
      (∀ x ∈ l, getDoc acc.store x.id = some x) →
      ∀ x ∈ l,
        shouldExecuteScan x.orderType x.triggerPrice
          (price x.inputToken x.outputToken) = true →
        x ∈ (l.foldl (scanStep exec price now) acc).swaps := by
  intro l
  induction l with
  | nil => intro acc _ _ x hx; cases hx
  | cons x0 l ih =>
    intro acc hN hG x hx hfire
    have hxid : x0.id ∉ l.map (fun o => o.id) :=
      (List.nodup_cons.mp (by simpa using hN)).1
    have hNtail : (l.map (fun o => o.id)).Nodup :=
      (List.nodup_cons.mp (by simpa using hN)).2
    have hne : ∀ z ∈ l, z.id ≠ x0.id := fun z hz he =>
      hxid (he ▸ List.mem_map.mpr ⟨z, hz, rfl⟩)
    rw [List.foldl_cons]
    rcases List.mem_cons.mp hx with rfl | hx'
    · apply scan_swaps_mono
      rw [scanStep_def, if_pos hfire]
      have hs := executeOrder_swaps_of_some exec now acc.store x.id
        (hG x (List.mem_cons_self x l))
      simp [hs]
    · refine ih _ hNtail ?_ x hx' hfire
      intro z hz
      rw [scanStep_getDoc_ne exec price now acc x0 (hne z hz)]
      exact hG z (List.mem_cons_of_mem x0 hz)

theorem pending_mem {store : List Order} {x : Order}
    (hx : x ∈ store.filter (fun o => o.status == OrderStatus.PENDING)) :
    x ∈ store ∧ x.status = OrderStatus.PENDING := by
  have := List.mem_filter.mp hx
  exact ⟨this.1, by simpa using this.2⟩

theorem pending_ids_nodup {store : List Order}
    (hN : (store.map (fun o => o.id)).Nodup) :
    ((store.filter (fun o => o.status == OrderStatus.PENDING)).map
      (fun o => o.id)).Nodup :=
  List.Nodup.sublist ((List.filter_sublist store).map (fun o => o.id)) hN

theorem pending_getDoc {store : List Order}
    (hN : (store.map (fun o => o.id)).Nodup) :
    ∀ x ∈ store.filter (fun o => o.status == OrderStatus.PENDING),
      getDoc store x.id = some x := by
  intro x hx
  exact getDoc_nodup hN (List.mem_filter.mp hx).1

theorem updateOrder_map_id (store : List Order) (j : Nat) (f : Order → Order)
    (hf : ∀ x, (f x).id = x.id) :
    (updateOrder store j f).map (fun o => o.id) = store.map (fun o => o.id) := by
  unfold updateOrder
  rw [List.map_map]
  refine List.map_congr_left ?_
  intro a _
  by_cases h : a.id = j <;> simp [h, hf]

theorem executeOrder_getDoc (exec : Order → SwapOutcome) (now : Nat)
    (store : List Order) (i : Nat) {o : Order} (h : getDoc store i = some o) :
    getDoc (executeOrder exec now store i).store i = some (
      match exec o with
      | .ok sig => { o with status := OrderStatus.EXECUTED,
                            executedAt := some now,
                            transactionSignature := some sig }
      | .err e => { o with status := OrderStatus.FAILED,
                           failureReason := some e }
      | .thrown m => { o with status := OrderStatus.FAILED,
                              failureReason := some (m.getD "Unknown error") }) := by
  cases hx : exec o <;>
    (simp only [executeOrder, h, hx];
     rw [getDoc_updateOrder_self _ _ (getDoc_updateOrder_self _ _ h)] <;>
       exact fun x => rfl)

theorem executeOrder_map_id (exec : Order → SwapOutcome) (now : Nat)
    (store : List Order) (i : Nat) :
    ((executeOrder exec now store i).store).map (fun o => o.id) =
      store.map (fun o => o.id) := by
  cases h : getDoc store i with
  | none => simp [executeOrder, h]
  | some o =>
    cases hx : exec o <;>
      (simp only [executeOrder, h, hx];
       rw [updateOrder_map_id, updateOrder_map_id] <;> exact fun x => rfl)

theorem scan_map_id (exec : Order → SwapOutcome)
    (price : String → String → ℚ) (now : Nat) :
    ∀ (l : List Order) (acc : EngineResult),
      ((l.foldl (scanStep exec price now) acc).store).map (fun o => o.id) =
        acc.store.map (fun o => o.id) := by
  intro l
  induction l with
  | nil => intro acc; rfl
  | cons x l ih =>
    intro acc
    rw [List.foldl_cons, ih, scanStep_def]
    split
    · exact executeOrder_map_id exec now acc.store x.id
    · rfl

theorem scan_getDoc_ne (exec : Order → SwapOutcome)
    (price : String → String → ℚ) (now : Nat) :
    ∀ (l : List Order) (acc : EngineResult) (i : Nat),
      (∀ x ∈ l, i ≠ x.id) →
      getDoc (l.foldl (scanStep exec price now) acc).store i =
        getDoc acc.store i := by
  intro l
  induction l with
  | nil => intro acc i _; rfl
  | cons x l ih =>
    intro acc i hne
    rw [List.foldl_cons,
        ih _ i (fun z hz => hne z (List.mem_cons_of_mem x hz)),
        scanStep_getDoc_ne exec price now acc x (hne x (List.mem_cons_self x l))]

theorem pending_id_ne {store : List Order} {orderId : Nat} {o : Order}
    (hN : (store.map (fun x => x.id)).Nodup)
    (h : getDoc store orderId = some o) (hst : o.status ≠ OrderStatus.PENDING) :
    ∀ x ∈ store.filter (fun x => x.status == OrderStatus.PENDING),
      x.id ≠ orderId := by
  intro x hx he
  rcases pending_mem hx with ⟨hxs, hxp⟩
  have hgx := getDoc_nodup hN hxs
  rw [he, h] at hgx
  injection hgx with hxo
  exact hst (by rw [hxo]; exact hxp)

theorem retry_scan_getDoc {store : List Order} {orderId : Nat} {o : Order}
    (hN : (store.map (fun x => x.id)).Nodup)
    (h : getDoc store orderId = some o) (hst : o.status ≠ OrderStatus.PENDING) :
    ∀ x ∈ store.filter (fun x => x.status == OrderStatus.PENDING),
      getDoc (updateOrder store orderId (fun x =>
        { x with status := OrderStatus.PENDING, failureReason := none }))
        x.id = some x := by
  intro x hx
  rw [getDoc_updateOrder_ne _ _ (pending_id_ne hN h hst x hx)]
  · exact getDoc_nodup hN (pending_mem hx).1
  · exact fun z => rfl

/-! ## Sample data used by witnesses and counterexamples -/

/-- A PENDING LIMIT order used as concrete test data. -/
def sampleOrder : Order :=
  { id := 1
    walletAddress := "w"
    inputToken := TOKENS_SOL
    outputToken := TOKENS_USDC
    inputAmount := 2
    orderType := OrderType.LIMIT
    triggerPrice := 100
    status := OrderStatus.PENDING
    createdAt := 0 }

/-- An EXECUTED order used as concrete test data. -/
def executedOrder : Order :=
  { sampleOrder with id := 2, status := OrderStatus.EXECUTED }

/-- A FAILED order used as concrete test data. -/
def failedOrder : Order :=
  { sampleOrder with
    status := OrderStatus.FAILED
    failureReason := some "slippage exceeded" }

/-! ## Claim theorems -/

/-- C2: the trigger decision is a pure total function of
(orderType, triggerPrice, currentPrice): for all positive trigger price `t`
and current price `c`, a LIMIT order fires iff `c ≤ t`, a STOP_LOSS order
fires iff `c ≤ t`, and a TAKE_PROFIT order fires iff `c ≥ t`; and the rule
applied by the periodic scan cycle (`checkOrderTriggers`) coincides with the
rule applied by the immediate post-create evaluation (`createOrder`). -/
theorem claim_C2_trigger_rule (t c : ℚ) (ht : 0 < t) (hc : 0 < c) :
    (shouldExecuteScan OrderType.LIMIT t c = true ↔ c ≤ t)
    ∧ (shouldExecuteScan OrderType.STOP_LOSS t c = true ↔ c ≤ t)
    ∧ (shouldExecuteScan OrderType.TAKE_PROFIT t c = true ↔ c ≥ t)
    ∧ (∀ ty : OrderType, shouldExecuteScan ty t c = shouldExecuteCreate ty t c) := by
  refine ⟨by simp [shouldExecuteScan], by simp [shouldExecuteScan],
    by simp [shouldExecuteScan], ?_⟩
  intro ty
  cases ty <;> rfl

theorem claim_C2_witness :
    (0 : ℚ) < 2 ∧ (0 : ℚ) < 1 ∧
    ((shouldExecuteScan OrderType.LIMIT 2 1 = true ↔ (1 : ℚ) ≤ 2)
     ∧ (shouldExecuteScan OrderType.STOP_LOSS 2 1 = true ↔ (1 : ℚ) ≤ 2)
     ∧ (shouldExecuteScan OrderType.TAKE_PROFIT 2 1 = true ↔ (1 : ℚ) ≥ 2)
     ∧ (∀ ty : OrderType, shouldExecuteScan ty 2 1 = shouldExecuteCreate ty 2 1)) :=
  ⟨by norm_num, by norm_num,
   claim_C2_trigger_rule 2 1 (by norm_num) (by norm_num)⟩

/-- C7: calling `executeOrder` on an order id absent from the store aborts
silently: the store is unchanged, no status write is performed and the swap
executor is not invoked. -/
theorem claim_C7_missing_order (exec : Order → SwapOutcome) (now : Nat)
    (store : List Order) (orderId : Nat)
    (h : getDoc store orderId = none) :
    executeOrder exec now store orderId = ⟨store, [], []⟩ := by
  simp [executeOrder, h]

theorem claim_C7_witness :
    getDoc [sampleOrder] 99 = none
    ∧ executeOrder (fun _ => SwapOutcome.err "x") 5 [sampleOrder] 99 =
        ⟨[sampleOrder], [], []⟩ :=
  ⟨rfl, claim_C7_missing_order (fun _ => SwapOutcome.err "x") 5 [sampleOrder] 99 rfl⟩

/-- C10: `executeOrder` enforces no status precondition: for an existing
order in any status, it invokes the swap executor exactly once with the
order's data and its first status write is the unconditional transition from
the order's current status to EXECUTING — the status is never compared to
PENDING on the execute path. -/
theorem claim_C10_no_status_precondition (exec : Order → SwapOutcome)
    (now : Nat) (store : List Order) (orderId : Nat) {o : Order}
    (h : getDoc store orderId = some o) :
    (executeOrder exec now store orderId).swaps = [o]
    ∧ (executeOrder exec now store orderId).writes.head? =
        some ⟨orderId, o.status, OrderStatus.EXECUTING⟩ := by
  cases hx : exec o <;> simp [executeOrder, h, hx]

theorem claim_C10_witness :
    getDoc [executedOrder] 2 = some executedOrder
    ∧ ((executeOrder (fun _ => SwapOutcome.ok "sig") 7 [executedOrder] 2).swaps =
        [executedOrder]
       ∧ (executeOrder (fun _ => SwapOutcome.ok "sig") 7 [executedOrder] 2).writes.head? =
        some ⟨2, OrderStatus.EXECUTED, OrderStatus.EXECUTING⟩) :=
  ⟨rfl, claim_C10_no_status_precondition (fun _ => SwapOutcome.ok "sig") 7
    [executedOrder] 2 rfl⟩

/-- C4: on an existing order, every failure path of the execution attempt
resolves the order to FAILED and never leaves it in EXECUTING: if the swap
executor returns `{success:false, error:e}` the final status is FAILED with
`failureReason = e`; if the executor throws, the final status is FAILED with
`failureReason` the thrown error's message or `"Unknown error"`; and in
every case the final status is EXECUTED or FAILED, never EXECUTING. -/
theorem claim_C4_failure_resolution (exec : Order → SwapOutcome) (now : Nat)
    (store : List Order) (orderId : Nat) {o : Order}
    (h : getDoc store orderId = some o) :
    (∀ e, exec o = SwapOutcome.err e →
        docStatus (executeOrder exec now store orderId).store orderId =
          some OrderStatus.FAILED
        ∧ docFailureReason (executeOrder exec now store orderId).store orderId =
          some e)
    ∧ (∀ m, exec o = SwapOutcome.thrown m →
        docStatus (executeOrder exec now store orderId).store orderId =
          some OrderStatus.FAILED
        ∧ docFailureReason (executeOrder exec now store orderId).store orderId =
          some (m.getD "Unknown error"))
    ∧ (docStatus (executeOrder exec now store orderId).store orderId =
        some OrderStatus.EXECUTED
       ∨ docStatus (executeOrder exec now store orderId).store orderId =
        some OrderStatus.FAILED) := by
  have hg := executeOrder_getDoc exec now store orderId h
  refine ⟨?_, ?_, ?_⟩
  · intro e he
    simp only [he] at hg
    exact ⟨by simp [docStatus, hg], by simp [docFailureReason, hg]⟩
  · intro m hm
    simp only [hm] at hg
    exact ⟨by simp [docStatus, hg], by simp [docFailureReason, hg]⟩
  · cases hx : exec o <;> simp only [hx] at hg
    · exact Or.inl (by simp [docStatus, hg])
    · exact Or.inr (by simp [docStatus, hg])
    · exact Or.inr (by simp [docStatus, hg])

theorem claim_C4_witness :
    getDoc [sampleOrder] 1 = some sampleOrder
    ∧ ((∀ e, (fun _ : Order => SwapOutcome.err "slippage exceeded") sampleOrder =
          SwapOutcome.err e →
        docStatus (executeOrder (fun _ => SwapOutcome.err "slippage exceeded") 9
            [sampleOrder] 1).store 1 = some OrderStatus.FAILED
        ∧ docFailureReason (executeOrder (fun _ => SwapOutcome.err "slippage exceeded") 9
            [sampleOrder] 1).store 1 = some e)
       ∧ (∀ m, (fun _ : Order => SwapOutcome.err "slippage exceeded") sampleOrder =
          SwapOutcome.thrown m →
        docStatus (executeOrder (fun _ => SwapOutcome.err "slippage exceeded") 9
            [sampleOrder] 1).store 1 = some OrderStatus.FAILED
        ∧ docFailureReason (executeOrder (fun _ => SwapOutcome.err "slippage exceeded") 9
            [sampleOrder] 1).store 1 = some (m.getD "Unknown error"))
       ∧ (docStatus (executeOrder (fun _ => SwapOutcome.err "slippage exceeded") 9
            [sampleOrder] 1).store 1 = some OrderStatus.EXECUTED
          ∨ docStatus (executeOrder (fun _ => SwapOutcome.err "slippage exceeded") 9
            [sampleOrder] 1).store 1 = some OrderStatus.FAILED)) :=
  ⟨rfl, claim_C4_failure_resolution (fun _ => SwapOutcome.err "slippage exceeded") 9
    [sampleOrder] 1 rfl⟩

/-- C3: a scan cycle evaluates and executes only PENDING orders.  If every
document with a given id has a non-PENDING status `st`, then neither one
scan cycle nor a second scan cycle run back-to-back on its result (with the
same price function, i.e. no price change) ever passes that order to the
swap executor; and a scan cycle over a store with no PENDING order invokes
the swap executor zero times. -/
theorem claim_C3_scan_only_pending (exec : Order → SwapOutcome)
    (price : String → String → ℚ) (now : Nat) (store : List Order)
    (oid : Nat) (st : OrderStatus) (hst : st ≠ OrderStatus.PENDING)
    (hI : ∀ y ∈ store, y.id = oid → y.status = st) :
    (∀ d ∈ (checkOrderTriggers exec price now store).swaps, d.id ≠ oid)
    ∧ (∀ d ∈ (checkOrderTriggers exec price now
          (checkOrderTriggers exec price now store).store).swaps, d.id ≠ oid)
    ∧ ((∀ y ∈ store, y.status ≠ OrderStatus.PENDING) →
        (checkOrderTriggers exec price now store).swaps = []) := by
  have key : ∀ (s : List Order), (∀ y ∈ s, y.id = oid → y.status = st) →
      ∀ d ∈ (checkOrderTriggers exec price now s).swaps, d.id ≠ oid := by
    intro s hIs d hd hdo
    unfold checkOrderTriggers at hd
    rcases scan_swaps_ids exec price now _ _ d hd with hmem | ⟨x, hx, hid⟩
    · simp at hmem
    · rcases pending_mem hx with ⟨hxs, hxp⟩
      have : x.status = st := hIs x hxs (hid.symm.trans hdo)
      exact hst (this.symm.trans hxp)
  have hI1 : ∀ y ∈ (checkOrderTriggers exec price now store).store,
      y.id = oid → y.status = st := by
    unfold checkOrderTriggers
    refine scan_store_keeps exec price now _ _ ?_ hI
    intro x hx he
    rcases pending_mem hx with ⟨hxs, hxp⟩
    exact hst ((hI x hxs he).symm.trans hxp)
  refine ⟨key store hI, key _ hI1, ?_⟩
  intro hnone
  have hfil : store.filter (fun o => o.status == OrderStatus.PENDING) = [] := by
    rw [List.filter_eq_nil_iff]
    intro a ha
    simpa using hnone a ha
  simp [checkOrderTriggers, hfil]

theorem claim_C3_witness :
    (OrderStatus.EXECUTED ≠ OrderStatus.PENDING)
    ∧ (∀ y ∈ [executedOrder], y.id = 2 → y.status = OrderStatus.EXECUTED)
    ∧ ((∀ d ∈ (checkOrderTriggers (fun _ => SwapOutcome.ok "s") (fun _ _ => 50) 3
          [executedOrder]).swaps, d.id ≠ 2)
       ∧ (∀ d ∈ (checkOrderTriggers (fun _ => SwapOutcome.ok "s") (fun _ _ => 50) 3
          (checkOrderTriggers (fun _ => SwapOutcome.ok "s") (fun _ _ => 50) 3
            [executedOrder]).store).swaps, d.id ≠ 2)
       ∧ ((∀ y ∈ [executedOrder], y.status ≠ OrderStatus.PENDING) →
          (checkOrderTriggers (fun _ => SwapOutcome.ok "s") (fun _ _ => 50) 3
            [executedOrder]).swaps = [])) :=
  ⟨by decide, by decide,
   claim_C3_scan_only_pending (fun _ => SwapOutcome.ok "s") (fun _ _ => 50) 3
     [executedOrder] 2 OrderStatus.EXECUTED (by decide) (by decide)⟩

/-- C6 counterexample: the retried order is NOT re-evaluated within the same
`retryOrder` call.  The in-call scan filters the stale pre-retry snapshot in
which the order is still FAILED, so even for a FAILED order whose trigger
fires at the current price (LIMIT trigger 100, current price 50 ≤ 100),
`retryOrder` writes PENDING but hands zero orders to the swap executor in
that call. -/
theorem claim_C6_counterexample :
    failedOrder.status = OrderStatus.FAILED
    ∧ shouldExecuteScan failedOrder.orderType failedOrder.triggerPrice
        ((fun _ _ => (50 : ℚ)) failedOrder.inputToken failedOrder.outputToken) = true
    ∧ (retryOrder (fun _ => SwapOutcome.ok "s") (fun _ _ => 50) 3
        [failedOrder] 1).swaps = []
    ∧ docStatus (retryOrder (fun _ => SwapOutcome.ok "s") (fun _ _ => 50) 3
        [failedOrder] 1).store 1 = some OrderStatus.PENDING := by
  refine ⟨rfl, by decide, rfl, by decide⟩

/-- C6 amended: for an order whose status is FAILED, `retryOrder` writes
status PENDING with `failureReason` cleared and runs a scan cycle in the
same call — but that scan iterates the stale pre-retry snapshot (the React
`orders` closure) in which the order is still FAILED, so the retried order
itself is never handed to the swap executor within the same call; it is
only re-evaluated by the next periodic scan cycle over the refreshed state,
which does execute it when its trigger fires at the current price.  The
store is assumed to have unique document ids. -/
theorem claim_C6_amended (exec : Order → SwapOutcome)
    (price : String → String → ℚ) (now : Nat) (store : List Order)
    (orderId : Nat) {o : Order}
    (hN : (store.map (fun x => x.id)).Nodup)
    (h : getDoc store orderId = some o) (hst : o.status = OrderStatus.FAILED) :
    docStatus (updateOrder store orderId (fun x =>
        { x with status := OrderStatus.PENDING, failureReason := none }))
      orderId = some OrderStatus.PENDING
    ∧ docFailureReason (updateOrder store orderId (fun x =>
        { x with status := OrderStatus.PENDING, failureReason := none }))
      orderId = none
    ∧ (retryOrder exec price now store orderId).writes.head? =
        some ⟨orderId, OrderStatus.FAILED, OrderStatus.PENDING⟩
    ∧ (∀ d ∈ (retryOrder exec price now store orderId).swaps, d.id ≠ orderId)
    ∧ (shouldExecuteScan o.orderType o.triggerPrice
          (price o.inputToken o.outputToken) = true →
        { o with status := OrderStatus.PENDING, failureReason := none } ∈
          (checkOrderTriggers exec price now
            (retryOrder exec price now store orderId).store).swaps) := by
  have hnotp : o.status ≠ OrderStatus.PENDING := by
    rw [hst]
    exact fun hc => OrderStatus.noConfusion hc
  have hup := getDoc_updateOrder_self
    (fun x => { x with status := OrderStatus.PENDING, failureReason := none })
    (fun x => rfl) h
  refine ⟨by simp [docStatus, hup], by simp [docFailureReason, hup], ?_, ?_, ?_⟩
  · simp [retryOrder, h, hst]
  · intro d hd
    simp only [retryOrder, h] at hd
    rcases scan_swaps_ids exec price now _ _ d hd with hmem | ⟨x, hx, hid⟩
    · simp at hmem
    · intro he
      exact pending_id_ne hN h hnotp x hx (hid ▸ he)
  · intro hfire
    have hrs : (retryOrder exec price now store orderId).store =
        ((store.filter (fun x => x.status == OrderStatus.PENDING)).foldl
          (scanStep exec price now)
          ⟨updateOrder store orderId (fun x =>
            { x with status := OrderStatus.PENDING, failureReason := none }),
           [], []⟩).store := by
      simp [retryOrder, h]
    have hdoc : getDoc (retryOrder exec price now store orderId).store orderId =
        some { o with status := OrderStatus.PENDING, failureReason := none } := by
      rw [hrs, scan_getDoc_ne exec price now _ _ orderId
        (fun x hx he => pending_id_ne hN h hnotp x hx he.symm)]
      exact hup
    have hNrs : ((retryOrder exec price now store orderId).store.map
        (fun x => x.id)).Nodup := by
      rw [hrs, scan_map_id]
      have : (updateOrder store orderId (fun x =>
          { x with status := OrderStatus.PENDING, failureReason := none })).map
            (fun o => o.id) = store.map (fun o => o.id) :=
        updateOrder_map_id store orderId _ (fun x => rfl)
      simpa [this] using hN
    have hpend : { o with status := OrderStatus.PENDING, failureReason := none } ∈
        (retryOrder exec price now store orderId).store.filter
          (fun x => x.status == OrderStatus.PENDING) :=
      List.mem_filter.mpr ⟨getDoc_mem hdoc, by simp⟩
    have hin := scan_fires_mem exec price now _
      ⟨(retryOrder exec price now store orderId).store, [], []⟩
      (pending_ids_nodup hNrs) (pending_getDoc hNrs)
      { o with status := OrderStatus.PENDING, failureReason := none } hpend hfire
    simpa [checkOrderTriggers] using hin

theorem claim_C6_witness :
    (([failedOrder] : List Order).map (fun x => x.id)).Nodup
    ∧ getDoc [failedOrder] 1 = some failedOrder
    ∧ failedOrder.status = OrderStatus.FAILED
    ∧ (docStatus (updateOrder [failedOrder] 1 (fun x =>
          { x with status := OrderStatus.PENDING, failureReason := none })) 1 =
        some OrderStatus.PENDING
       ∧ docFailureReason (updateOrder [failedOrder] 1 (fun x =>
          { x with status := OrderStatus.PENDING, failureReason := none })) 1 = none
       ∧ (retryOrder (fun _ => SwapOutcome.ok "s") (fun _ _ => 50) 3
            [failedOrder] 1).writes.head? =
          some ⟨1, OrderStatus.FAILED, OrderStatus.PENDING⟩
       ∧ (∀ d ∈ (retryOrder (fun _ => SwapOutcome.ok "s") (fun _ _ => 50) 3
            [failedOrder] 1).swaps, d.id ≠ 1)
       ∧ (shouldExecuteScan failedOrder.orderType failedOrder.triggerPrice
            ((fun _ _ => (50 : ℚ)) failedOrder.inputToken failedOrder.outputToken) = true →
          { failedOrder with status := OrderStatus.PENDING, failureReason := none } ∈
            (checkOrderTriggers (fun _ => SwapOutcome.ok "s") (fun _ _ => 50) 3
              (retryOrder (fun _ => SwapOutcome.ok "s") (fun _ _ => 50) 3
                [failedOrder] 1).store).swaps)) :=
  ⟨by decide, rfl, rfl,
   claim_C6_amended (fun _ => SwapOutcome.ok "s") (fun _ _ => 50) 3
     [failedOrder] 1 (by decide) rfl rfl⟩

theorem cacheLookup_cacheInsert (cache : List (String × CacheEntry))
    (mint : String) (entry : CacheEntry) :
    cacheLookup (cacheInsert cache mint entry) mint = some entry := by
  simp [cacheLookup, cacheInsert, List.find?_cons]

theorem allowedEdge_into_executed {a : OrderStatus}
    (h : allowedEdge a OrderStatus.EXECUTED = true) :
    a = OrderStatus.EXECUTING := by
  cases a <;> simp_all [allowedEdge]

/-- Store reached from the empty store by `createOrder` for a LIMIT order
whose trigger already fires (current price 150 ≤ trigger 160) with a
succeeding executor: its single order ends in status EXECUTED. -/
def c1Store : List Order :=
  (createOrder (fun _ => SwapOutcome.ok "sig") (fun _ _ => 150) 0 "w" 0 []
    ⟨TOKENS_SOL, TOKENS_USDC, 1, OrderType.LIMIT, 160⟩).store

/-- C1 counterexample: the claim includes `cancel` among the engine
operations and asserts no transition leaves EXECUTED, but `cancelOrder`
writes CANCELLED unconditionally: on a reachable store whose order is
already EXECUTED, cancelling it produces the status transition
EXECUTED -> CANCELLED, which is outside the §4.5 graph. -/
theorem claim_C1_counterexample :
    docStatus c1Store 0 = some OrderStatus.EXECUTED
    ∧ (cancelOrder c1Store 0).writes =
        [⟨0, OrderStatus.EXECUTED, OrderStatus.CANCELLED⟩]
    ∧ allowedEdge OrderStatus.EXECUTED OrderStatus.CANCELLED = false := by
  refine ⟨by decide, by decide, rfl⟩

/-- C1 amended: every order's status is one of the five enum values (by
construction of the status type), and the observed status transitions stay
inside the §4.5 graph whenever the operations are applied under their
intended preconditions — scan cycles on a store with unique ids, execute on
a PENDING order, cancel on a PENDING order, retry on a FAILED order, and
create with a fresh id; moreover a scan-cycle write into EXECUTED always has
EXECUTING as its pre-state, so EXECUTED is never reached without passing
through EXECUTING.  (Unconditional cancel/retry/execute on orders in other
statuses can leave the graph, as the counterexample shows.) -/
theorem claim_C1_amended (exec : Order → SwapOutcome)
    (price : String → String → ℚ) (now : Nat) (store : List Order)
    (hN : (store.map (fun o => o.id)).Nodup) :
    (∀ w ∈ (checkOrderTriggers exec price now store).writes,
        allowedEdge w.oldStatus w.newStatus = true)
    ∧ (∀ i o, getDoc store i = some o → o.status = OrderStatus.PENDING →
        ∀ w ∈ (executeOrder exec now store i).writes,
          allowedEdge w.oldStatus w.newStatus = true)
    ∧ (∀ i o, getDoc store i = some o → o.status = OrderStatus.PENDING →
        ∀ w ∈ (cancelOrder store i).writes,
          allowedEdge w.oldStatus w.newStatus = true)
    ∧ (∀ i o, getDoc store i = some o → o.status = OrderStatus.FAILED →
        ∀ w ∈ (retryOrder exec price now store i).writes,
          allowedEdge w.oldStatus w.newStatus = true)
    ∧ (∀ wa fid draft, fid ∉ store.map (fun o => o.id) →
        ∀ w ∈ (createOrder exec price now wa fid store draft).writes,
          allowedEdge w.oldStatus w.newStatus = true)
    ∧ (∀ w ∈ (checkOrderTriggers exec price now store).writes,
        w.newStatus = OrderStatus.EXECUTED →
          w.oldStatus = OrderStatus.EXECUTING) := by
  have hscan : ∀ (s : List Order), (s.map (fun o => o.id)).Nodup →
      ∀ w ∈ (checkOrderTriggers exec price now s).writes,
        allowedEdge w.oldStatus w.newStatus = true := by
    intro s hNs
    unfold checkOrderTriggers
    refine scan_writes_ok exec price now _ _ (pending_ids_nodup hNs)
      (fun x hx => (pending_mem hx).2) (pending_getDoc hNs) ?_
    intro w hw
    simp at hw
  refine ⟨hscan store hN, ?_, ?_, ?_, ?_, ?_⟩
  · intro i o h hp
    exact executeOrder_writes_pending exec now store i h hp
  · intro i o h hp w hw
    simp only [cancelOrder, h, List.mem_singleton] at hw
    simp [hw, hp, allowedEdge]
  · intro i o h hp w hw
    simp only [retryOrder, h] at hw
    rcases List.mem_cons.mp hw with hw | hw
    · simp [hw, hp, allowedEdge]
    · have hnotp : o.status ≠ OrderStatus.PENDING := by
        rw [hp]
        exact fun hc => OrderStatus.noConfusion hc
      refine scan_writes_ok exec price now _ _ (pending_ids_nodup hN)
        (fun x hx => (pending_mem hx).2) (retry_scan_getDoc hN h hnotp) ?_ w hw
      intro w' hw'
      simp at hw'
  · intro wa fid draft hfresh w hw
    by_cases hf : shouldExecuteCreate draft.orderType draft.triggerPrice
        (price draft.inputToken draft.outputToken) = true
    · simp only [createOrder, if_pos hf] at hw
      have hdoc := getDoc_append_fresh store
        { id := fid
          walletAddress := wa
          inputToken := draft.inputToken
          outputToken := draft.outputToken
          inputAmount := draft.inputAmount
          orderType := draft.orderType
          triggerPrice := draft.triggerPrice
          status := OrderStatus.PENDING
          createdAt := now } hfresh
      exact executeOrder_writes_pending exec now _ fid hdoc rfl w hw
    · simp only [createOrder, if_neg hf] at hw
      simp at hw
  · intro w hw hnew
    have hall := hscan store hN w hw
    rw [hnew] at hall
    exact allowedEdge_into_executed hall

theorem claim_C1_witness :
    (([sampleOrder] : List Order).map (fun o => o.id)).Nodup
    ∧ ((∀ w ∈ (checkOrderTriggers (fun _ => SwapOutcome.ok "s") (fun _ _ => 50) 3
          [sampleOrder]).writes, allowedEdge w.oldStatus w.newStatus = true)
       ∧ (∀ i o, getDoc [sampleOrder] i = some o →
            o.status = OrderStatus.PENDING →
            ∀ w ∈ (executeOrder (fun _ => SwapOutcome.ok "s") 3 [sampleOrder] i).writes,
              allowedEdge w.oldStatus w.newStatus = true)
       ∧ (∀ i o, getDoc [sampleOrder] i = some o →
            o.status = OrderStatus.PENDING →
            ∀ w ∈ (cancelOrder [sampleOrder] i).writes,
              allowedEdge w.oldStatus w.newStatus = true)
       ∧ (∀ i o, getDoc [sampleOrder] i = some o →
            o.status = OrderStatus.FAILED →
            ∀ w ∈ (retryOrder (fun _ => SwapOutcome.ok "s") (fun _ _ => 50) 3
              [sampleOrder] i).writes,
              allowedEdge w.oldStatus w.newStatus = true)
       ∧ (∀ wa fid draft, fid ∉ ([sampleOrder] : List Order).map (fun o => o.id) →
            ∀ w ∈ (createOrder (fun _ => SwapOutcome.ok "s") (fun _ _ => 50) 3
              wa fid [sampleOrder] draft).writes,
              allowedEdge w.oldStatus w.newStatus = true)
       ∧ (∀ w ∈ (checkOrderTriggers (fun _ => SwapOutcome.ok "s") (fun _ _ => 50) 3
            [sampleOrder]).writes,
          w.newStatus = OrderStatus.EXECUTED →
            w.oldStatus = OrderStatus.EXECUTING)) :=
  ⟨by decide, claim_C1_amended (fun _ => SwapOutcome.ok "s") (fun _ _ => 50) 3
    [sampleOrder] (by decide)⟩

/-- A draft with non-positive input amount, as concrete test data. -/
def badDraft : OrderDraft :=
  ⟨TOKENS_SOL, TOKENS_USDC, -1, OrderType.LIMIT, 100⟩

/-- C5 counterexample: `createOrder` itself performs no validation: on a
draft with inputAmount = -1 ≤ 0 it creates the store document anyway, and
since the trigger already fires at the current price it even invokes the
swap executor for the invalid order. -/
theorem claim_C5_counterexample :
    badDraft.inputAmount ≤ 0
    ∧ (createOrder (fun _ => SwapOutcome.ok "sig") (fun _ _ => 50) 0 "w" 3 []
        badDraft).store ≠ []
    ∧ (createOrder (fun _ => SwapOutcome.ok "sig") (fun _ _ => 50) 0 "w" 3 []
        badDraft).swaps ≠ [] := by
  refine ⟨by norm_num [badDraft], by decide, by decide⟩

/-- C5 amended: the positive-amount and positive-trigger-price validation is
performed by the order form's submit handler (`OrderForm.handleSubmit`)
before it invokes `createOrder`, not by `createOrder` itself: for every
draft with inputAmount ≤ 0 or triggerPrice ≤ 0, `handleSubmit` leaves the
store unchanged, performs no status write, and never invokes the swap
executor. -/
theorem claim_C5_amended (exec : Order → SwapOutcome)
    (price : String → String → ℚ) (now : Nat) (wa : String) (fid : Nat)
    (store : List Order) (draft : OrderDraft)
    (h : draft.inputAmount ≤ 0 ∨ draft.triggerPrice ≤ 0) :
    handleSubmit exec price now wa fid store draft = ⟨store, [], []⟩ := by
  rcases h with h | h
  · simp [handleSubmit, h]
  · by_cases h1 : draft.inputAmount ≤ 0
    · simp [handleSubmit, h1]
    · simp [handleSubmit, h1, h]

theorem claim_C5_witness :
    (badDraft.inputAmount ≤ 0 ∨ badDraft.triggerPrice ≤ 0)
    ∧ handleSubmit (fun _ => SwapOutcome.ok "sig") (fun _ _ => 50) 0 "w" 3 []
        badDraft = ⟨[], [], []⟩ :=
  ⟨Or.inl (by norm_num [badDraft]),
   claim_C5_amended (fun _ => SwapOutcome.ok "sig") (fun _ _ => 50) 0 "w" 3 []
     badDraft (Or.inl (by norm_num [badDraft]))⟩

/-- C8 counterexample: the fallback price is not deterministic.  Under
identical provider-failure conditions (same empty cache, same time, same
mint, provider throwing), two runs of `getTokenPrice` whose `Math.random()`
draws differ (0 versus 1/2, both legal draws in [0,1)) return different
fallback values for SOL (145 versus 150). -/
theorem claim_C8_counterexample :
    (getTokenPrice ProviderResult.failure 0 1000 [] TOKENS_SOL).result ≠
      (getTokenPrice ProviderResult.failure (1 / 2) 1000 [] TOKENS_SOL).result := by
  have e1 : (getTokenPrice ProviderResult.failure 0 1000 [] TOKENS_SOL).result =
      some (generateFallbackPrice TOKENS_SOL 0) := rfl
  have e2 : (getTokenPrice ProviderResult.failure (1 / 2) 1000 [] TOKENS_SOL).result =
      some (generateFallbackPrice TOKENS_SOL (1 / 2)) := rfl
  have g1 : generateFallbackPrice TOKENS_SOL 0 = 145 := by
    unfold generateFallbackPrice
    rw [if_pos rfl]
    norm_num
  have g2 : generateFallbackPrice TOKENS_SOL (1 / 2) = 150 := by
    unfold generateFallbackPrice
    rw [if_pos rfl]
    norm_num
  rw [e1, e2, g1, g2]
  simp only [ne_eq, Option.some.injEq]
  norm_num

/-- C8 amended: when the provider fails, `getTokenPrice` returns a synthetic
fallback price instead of failing the caller: on a cache miss the result is
exactly `generateFallbackPrice mint rand` (and the cache is untouched).  The
fallback is a fixed per-token base plus a bounded random jitter — for SOL it
always lies in [145, 155) — so it is not deterministic across runs; it is
deterministic (the constant 1) only for mints outside the known token
list. -/
theorem claim_C8_amended (mint : String) (rand : ℚ) (now : Nat)
    (cache : List (String × CacheEntry)) (h0 : 0 ≤ rand) (h1 : rand < 1)
    (hmiss : cacheLookup cache mint = none) :
    (getTokenPrice ProviderResult.failure rand now cache mint).result =
      some (generateFallbackPrice mint rand)
    ∧ (getTokenPrice ProviderResult.failure rand now cache mint).cache = cache
    ∧ (mint = TOKENS_SOL →
        145 ≤ generateFallbackPrice mint rand
        ∧ generateFallbackPrice mint rand < 155)
    ∧ (mint ∉ [TOKENS_SOL, TOKENS_USDC, TOKENS_USDT, TOKENS_BONK,
          TOKENS_mSOL, TOKENS_JTO] →
        generateFallbackPrice mint rand = 1) := by
  refine ⟨?_, ?_, ?_, ?_⟩
  · simp [getTokenPrice, hmiss, fetchTokenPrice]
  · simp [getTokenPrice, hmiss, fetchTokenPrice]
  · intro hm
    subst hm
    unfold generateFallbackPrice
    rw [if_pos rfl]
    constructor <;> linarith
  · intro hm
    simp only [List.mem_cons, List.not_mem_nil, or_false, not_or] at hm
    obtain ⟨hs, hc, ht, hb, hms, hj⟩ := hm
    simp [generateFallbackPrice, hs, hc, ht, hb, hms, hj]

theorem claim_C8_witness :
    (0 : ℚ) ≤ 1 / 2 ∧ (1 : ℚ) / 2 < 1
    ∧ cacheLookup [] "unknown-mint" = none
    ∧ ((getTokenPrice ProviderResult.failure (1 / 2) 40 [] "unknown-mint").result =
        some (generateFallbackPrice "unknown-mint" (1 / 2))
       ∧ (getTokenPrice ProviderResult.failure (1 / 2) 40 [] "unknown-mint").cache = []
       ∧ ("unknown-mint" = TOKENS_SOL →
          145 ≤ generateFallbackPrice "unknown-mint" (1 / 2)
          ∧ generateFallbackPrice "unknown-mint" (1 / 2) < 155)
       ∧ ("unknown-mint" ∉ [TOKENS_SOL, TOKENS_USDC, TOKENS_USDT, TOKENS_BONK,
            TOKENS_mSOL, TOKENS_JTO] →
          generateFallbackPrice "unknown-mint" (1 / 2) = 1)) :=
  ⟨by norm_num, by norm_num, rfl,
   claim_C8_amended "unknown-mint" (1 / 2) 40 [] (by norm_num) (by norm_num) rfl⟩

/-- C9: the token-price cache is idempotent within its 30 s TTL: a first
`getTokenPrice` call whose provider returns a truthy price `p` on a cache
miss stores `p` and makes exactly one provider call; a second call strictly
less than 30000 ms later returns the identical value, leaves the cache
unchanged, and makes no provider call (whatever the provider would answer);
and a call once the TTL has elapsed makes exactly one fresh provider
call. -/
theorem claim_C9_cache_idempotence (p : ℚ) (hp : p ≠ 0) (mint : String)
    (cache0 : List (String × CacheEntry)) (t1 t2 t3 : Nat) (rand1 : ℚ)
    (prov2 prov3 : ProviderResult) (rand2 rand3 : ℚ)
    (hmiss : cacheLookup cache0 mint = none)
    (h12 : t2 - t1 < 30000)
    (h13 : ¬ t3 - t1 < 30000) :
    (getTokenPrice (ProviderResult.ok (some p)) rand1 t1 cache0 mint).result = some p
    ∧ (getTokenPrice (ProviderResult.ok (some p)) rand1 t1 cache0 mint).providerCalls = 1
    ∧ (getTokenPrice prov2 rand2 t2
        (getTokenPrice (ProviderResult.ok (some p)) rand1 t1 cache0 mint).cache
        mint).result = some p
    ∧ (getTokenPrice prov2 rand2 t2
        (getTokenPrice (ProviderResult.ok (some p)) rand1 t1 cache0 mint).cache
        mint).providerCalls = 0
    ∧ (getTokenPrice prov2 rand2 t2
        (getTokenPrice (ProviderResult.ok (some p)) rand1 t1 cache0 mint).cache
        mint).cache =
      (getTokenPrice (ProviderResult.ok (some p)) rand1 t1 cache0 mint).cache
    ∧ (getTokenPrice prov3 rand3 t3
        (getTokenPrice (ProviderResult.ok (some p)) rand1 t1 cache0 mint).cache
        mint).providerCalls = 1 := by
  have hr1 : getTokenPrice (ProviderResult.ok (some p)) rand1 t1 cache0 mint =
      ⟨some p, cacheInsert cache0 mint ⟨p, t1⟩, 1⟩ := by
    simp only [getTokenPrice, hmiss, fetchTokenPrice]
    rw [if_pos hp]
  refine ⟨by rw [hr1], by rw [hr1], ?_, ?_, ?_, ?_⟩
  · rw [hr1]
    simp only [getTokenPrice, cacheLookup_cacheInsert]
    rw [if_pos h12]
  · rw [hr1]
    simp only [getTokenPrice, cacheLookup_cacheInsert]
    rw [if_pos h12]
  · rw [hr1]
    simp only [getTokenPrice, cacheLookup_cacheInsert]
    rw [if_pos h12]
  · rw [hr1]
    simp only [getTokenPrice, cacheLookup_cacheInsert]
    rw [if_neg h13]
    cases prov3 with
    | failure => rfl
    | ok po =>
      cases po with
      | none => rfl
      | some q =>
        by_cases hq : q = 0
        · simp [fetchTokenPrice, hq]
        · simp [fetchTokenPrice, hq]

theorem claim_C9_witness :
    (3 : ℚ) ≠ 0
    ∧ cacheLookup [] "m" = none
    ∧ ((10 : Nat) - 0 < 30000)
    ∧ ¬ ((30000 : Nat) - 0 < 30000)
    ∧ ((getTokenPrice (ProviderResult.ok (some 3)) 0 0 [] "m").result = some 3
       ∧ (getTokenPrice (ProviderResult.ok (some 3)) 0 0 [] "m").providerCalls = 1
       ∧ (getTokenPrice ProviderResult.failure 0 10
            (getTokenPrice (ProviderResult.ok (some 3)) 0 0 [] "m").cache
            "m").result = some 3
       ∧ (getTokenPrice ProviderResult.failure 0 10
            (getTokenPrice (ProviderResult.ok (some 3)) 0 0 [] "m").cache
            "m").providerCalls = 0
       ∧ (getTokenPrice ProviderResult.failure 0 10
            (getTokenPrice (ProviderResult.ok (some 3)) 0 0 [] "m").cache
            "m").cache =
          (getTokenPrice (ProviderResult.ok (some 3)) 0 0 [] "m").cache
       ∧ (getTokenPrice ProviderResult.failure 0 30000
            (getTokenPrice (ProviderResult.ok (some 3)) 0 0 [] "m").cache
            "m").providerCalls = 1) :=
  ⟨by norm_num, rfl, by norm_num, by norm_num,
   claim_C9_cache_idempotence 3 (by norm_num) "m" [] 0 10 30000 0
     ProviderResult.failure ProviderResult.failure 0 0 rfl (by norm_num)
     (by norm_num)⟩

end JupTrade
